import Mathlib

/-!
Verification of the natural-language specification of the
`segmentio/coredns-plugins` repository (the `consul` and `dogstatsd`
CoreDNS plugins) against a shallow embedding of its Go source.

Conventions used throughout:

* Go `time.Duration` values are nanosecond counts.  Every duration that
  appears in the embedded code paths is non-negative (the configuration
  parsers reject negative TTLs and flush intervals), so durations are
  modelled as `Nat`; Go's truncating integer division then coincides with
  `Nat` division.
* Go `uint64` / `uint32` arithmetic is modelled on `Nat` with explicit
  `% 2 ^ 64` / `% 2 ^ 32` where the Go code can wrap.
* Go `float64` metric values are modelled as `ℚ`; every concrete input used
  in a theorem below is a small integer, which `float64` represents exactly,
  so no rounding behaviour is hidden by this choice.
* Fallible or partial results are modelled with `Option`.
-/

namespace Consul

/-! ### Cache entry TTL jitter (`cache.spawn`, `consul/cache.go`)

`spawn` initialises the per-entry TTL from the configured one:

    sc.ttl /= 2
    sc.ttl += time.Duration(sc.rand.Int63n(int64(sc.ttl)))

`rand.Int63n(n)` returns a uniform value in `[0, n)`.  `spawnTTL ttl r` is
the effective entry lifetime produced from the configured TTL `ttl` and the
random draw `r` (which satisfies `r < ttl / 2`, the bound of `Int63n` after
the halving).  The entry's expiration is `creation time + spawnTTL ttl r`
(`deadline := time.Now().Add(c.ttl)` in `serviceCache.serve`). -/
def spawnTTL (ttl r : Nat) : Nat := ttl / 2 + r

/-! ### Prefetch trigger (`serviceCache.serve`, `consul/cache.go`)

    prefetchTrigger := time.NewTimer(c.ttl - ((c.ttl * time.Duration(c.prefetchPercentage)) / 100))

The timer fires `prefetchTriggerDelay ttl pct` after entry creation, while
the entry expires `ttl` after creation (both measured from the same
`time.Now()` at the top of `serve`). -/
def prefetchTriggerDelay (ttl pct : Nat) : Nat := ttl - ttl * pct / 100

/-! ### DNS record header TTL (`serviceResponse.header`, `consul/cache.go`)

    Ttl: uint32(r.ttl.Round(time.Second))

`Duration.Round(m)` rounds a duration to the nearest multiple of `m`,
halves away from zero.  `r.ttl` is the remaining entry lifetime, already
clamped to be non-negative by the `ttl` closure in `serviceCache.serve`:

    d := deadline.Sub(time.Now()); if d < 0 { d = 0 }

`durRound d m` is Go's `time.Duration.Round` restricted to the non-negative
durations that can reach it here, and `headerTTL remaining` is the value
stored in the record header's 32-bit TTL field: the rounded duration is a
count of *nanoseconds* and the Go code converts it to `uint32` without
dividing by `time.Second`, so the stored value is that nanosecond count
truncated to 32 bits. -/
def durRound (d m : Nat) : Nat :=
  if m = 0 then d
  else if 2 * (d % m) < m then d - d % m
  else d - d % m + m

def headerTTL (remaining : Nat) : Nat := durRound remaining 1000000000 % 2 ^ 32

/-- The TTL the specification prescribes for record headers:
`max(1, floor(ttl_remaining / 1s))`. -/
def specHeaderTTL (remaining : Nat) : Nat := max 1 (remaining / 1000000000)

/-! ### Round-robin endpoint selection (`serviceCache.serve`, `consul/cache.go`)

    roundRobin := 0
    get := func() (srv service) {
        if len(c.services) != 0 {
            index := roundRobin
            roundRobin = (roundRobin + 1) % len(c.services)
            srv = c.services[index]
        }
        return
    }

`rrGet` is one call of `get` against the fixed endpoint list `services` and
the mutable counter `rr`; `rrServe` is the reply stream produced by `k`
successive lookups (no intervening refresh: `services` is fixed for the
lifetime of one `serviceCache.serve`).  The Go code returns the zero
`service` when the list is empty, modelled as `none`. -/
def rrGet (services : List α) (rr : Nat) : Option α × Nat :=
  if services.length = 0 then (none, rr)
  else (services.get? rr, (rr + 1) % services.length)

def rrServe (services : List α) : Nat → Nat → List (Option α)
  | _, 0 => []
  | rr, k + 1 =>
    (rrGet services rr).1 :: rrServe services (rrGet services rr).2 k

theorem rrServe_eq_map (services : List α) (n : Nat) (h : services.length = n)
    (hn : 0 < n) (rr : Nat) (hrr : rr < n) (k : Nat) :
    rrServe services rr k = (List.range k).map (fun j => services.get? ((rr + j) % n)) := by
  induction k generalizing rr with
  | zero => simp [rrServe]
  | succ k ih =>
    have hne : services.length ≠ 0 := by omega
    have h2 : ((rr + 1) % n) < n := Nat.mod_lt _ hn
    simp only [rrServe, rrGet, h, if_neg (Nat.pos_iff_ne_zero.mp hn)]
    rw [ih ((rr + 1) % n) h2, List.range_succ_eq_map, List.map_cons, List.map_map]
    refine congrArg₂ List.cons ?_ ?_
    · rw [Nat.add_zero, Nat.mod_eq_of_lt hrr]
    · refine List.map_congr_left fun j _ => ?_
      simp only [Function.comp_apply]
      rw [Nat.mod_add_mod]
      congr 2
      omega

theorem length_filter_range_mod {n : Nat} (hn : 0 < n) {i : Nat} (hi : i < n) (k : Nat) :
    ((List.range (k * n)).filter (fun j => j % n == i)).length = k := by
  induction k with
  | zero => simp
  | succ k ih =>
    rw [show (k + 1) * n = k * n + n from by ring, List.range_add,
      List.filter_append, List.length_append, ih]
    have hcong : ∀ a ∈ List.range n, ((k * n + a) % n == i) = (a == i) := fun a ha => by
      rw [Nat.add_comm (k * n) a, Nat.add_mul_mod_self_right,
        Nat.mod_eq_of_lt (List.mem_range.mp ha)]
    rw [List.filter_map]
    simp only [Function.comp_def]
    rw [List.filter_congr hcong, List.filter_beq,
      List.count_eq_one_of_mem (List.nodup_range n) (List.mem_range.mpr hi)]
    simp

/-- C1 (round-robin serving): within one `serviceCache.serve` lifetime
(fixed endpoint list, no intervening refresh), the reply stream of `k * n`
successive lookups against an `n`-endpoint list serves endpoint
`services[(counter - 1) % n]` to the (1-based) `counter`-th lookup — i.e.
the 0-based `j`-th lookup gets `services[j % n]` — and each endpoint index
`i < n` is served exactly `k` times. -/
theorem round_robin_serving (services : List α) (n k i : Nat) (h : services.length = n)
    (hn : 0 < n) (hi : i < n) :
    rrServe services 0 (k * n) = (List.range (k * n)).map (fun j => services.get? (j % n))
      ∧ ((List.range (k * n)).filter (fun j => j % n == i)).length = k := by
  refine ⟨?_, length_filter_range_mod hn hi k⟩
  rw [rrServe_eq_map services n h hn 0 hn (k * n)]
  simp only [Nat.zero_add]

/-- Witness for `round_robin_serving`: three endpoints, six lookups, the
middle endpoint is served exactly twice. -/
theorem round_robin_serving_witness :
    ([10, 20, 30] : List Nat).length = 3 ∧ 0 < 3 ∧ 1 < 3 ∧
      (rrServe [10, 20, 30] 0 (2 * 3)
          = (List.range (2 * 3)).map (fun j => [10, 20, 30].get? (j % 3))
        ∧ ((List.range (2 * 3)).filter (fun j => j % 3 == 1)).length = 2) :=
  ⟨rfl, by decide, by decide,
    round_robin_serving [10, 20, 30] 3 2 1 rfl (by decide) (by decide)⟩

/-- C4 (counterexample): the claim asserts the entry lifetime lies in
`[ttl, ttl + ttl/2)`.  With the configured default `ttl = 60s`
(`60000000000 ns`) and the random draw `r = 0` (a legitimate value of
`rand.Int63n(ttl/2)`, whose bound `ttl/2` is positive here), the code's
entry lifetime is `ttl/2 + 0 = 30s`, strictly below the claimed lower
bound `ttl`. -/
theorem cache_jitter_counterexample :
    0 < 60000000000 / 2 ∧ ¬ (60000000000 ≤ spawnTTL 60000000000 0) := by
  refine ⟨by norm_num, ?_⟩
  unfold spawnTTL
  norm_num

/-- C4 (amended): for every newly created service cache entry, the
lifetime equals `ttl/2` plus a uniform random jitter drawn from
`[0, ttl/2)`, so the expiration lies in `[now + ttl/2, now + 2*(ttl/2))`,
in particular at least half the configured TTL and strictly below the
configured TTL (for `ttl ≥ 2`; integer division on nanoseconds). -/
theorem cache_jitter_range (ttl r : Nat) (hr : r < ttl / 2) :
    ttl / 2 ≤ spawnTTL ttl r ∧ spawnTTL ttl r < ttl / 2 + ttl / 2
      ∧ ttl / 2 + ttl / 2 ≤ ttl := by
  unfold spawnTTL
  omega

/-- Witness for `cache_jitter_range` at `ttl = 60s`, `r = 7 ns`. -/
theorem cache_jitter_range_witness :
    7 < 60000000000 / 2 ∧
      (60000000000 / 2 ≤ spawnTTL 60000000000 7
        ∧ spawnTTL 60000000000 7 < 60000000000 / 2 + 60000000000 / 2
        ∧ 60000000000 / 2 + 60000000000 / 2 ≤ 60000000000) :=
  ⟨by norm_num, cache_jitter_range 60000000000 7 (by norm_num)⟩

/-- C5 (counterexample): the claim asserts the prefetch deadline is
`expiration - ttl * prefetch_percentage / 1000`.  With `ttl = 1000 ns` and
`prefetch_percentage = 10`, the code arms the prefetch trigger
`1000 - 1000 * 10 / 100 = 900 ns` after entry creation, but the claimed
formula demands `1000 - 1000 * 10 / 1000 = 990 ns`. -/
theorem prefetch_deadline_counterexample :
    prefetchTriggerDelay 1000 10 ≠ 1000 - 1000 * 10 / 1000 := by
  unfold prefetchTriggerDelay
  norm_num

/-- C5 (amended): the prefetch deadline equals
`expiration - ttl * prefetch_percentage / 100` — the divisor in the code is
`100`, not `1000`: the trigger timer is armed `ttl - ttl*pct/100` after
entry creation while the entry expires `ttl` after creation, so the trigger
fires `ttl * pct / 100` before the expiration. -/
theorem prefetch_deadline_formula (ttl pct : Nat) (hpct : pct ≤ 100) :
    ttl - prefetchTriggerDelay ttl pct = ttl * pct / 100 := by
  unfold prefetchTriggerDelay
  have h1 : ttl * pct ≤ ttl * 100 := Nat.mul_le_mul_left _ hpct
  omega

/-- Witness for `prefetch_deadline_formula` with the default configuration
`ttl = 60s`, `prefetch_percentage = 10`. -/
theorem prefetch_deadline_formula_witness :
    10 ≤ 100 ∧ 60000000000 - prefetchTriggerDelay 60000000000 10 = 60000000000 * 10 / 100 :=
  ⟨by norm_num, prefetch_deadline_formula 60000000000 10 (by norm_num)⟩

/-- C7 (code bug): the record-header TTL field.  The code stores
`uint32(r.ttl.Round(time.Second))` — the remaining lifetime rounded to the
nearest second but still expressed in *nanoseconds*, truncated to 32 bits —
where the specification (and the DNS TTL field's meaning, in seconds)
prescribes `max(1, remaining / 1s)`.  At `remaining = 30s` the code stores
`30000000000 mod 2^32 = 4230196224` instead of `30`; at
`remaining = 0.4s` it stores `0`, which the repository's own test
(`consul_test.go`, `assertNonZeroTTL`) declares impossible
("TTL cannot be zero"). -/
theorem headerTTL_nanosecond_bug :
    headerTTL 30000000000 = 4230196224 ∧ specHeaderTTL 30000000000 = 30
      ∧ (4230196224 : Nat) ≠ 30
      ∧ headerTTL 400000000 = 0 ∧ specHeaderTTL 400000000 = 1 := by
  refine ⟨?_, ?_, by norm_num, ?_, ?_⟩ <;> rfl

/-! ### Single-flight dispatch loop (`cache.serve`, `consul/cache.go`)

`cache.serve` is one goroutine that owns the `prefetches` and `caches` maps
and reacts to four kinds of channel messages:

* a lookup request (`r := <-reqs`): if the key is in neither `caches` nor
  `prefetches`, it spawns a fetch and records it in `prefetches`
  (cache miss); otherwise the request is forwarded to the existing entry
  and no fetch is spawned;
* a prefetch trigger (`key := <-next`): spawns a fetch only if
  `prefetches` has no entry for the key;
* a completed fetch (`sc := <-ready`): the arriving entry is moved from
  `prefetches` to `caches`.  In the dispatch loop the entry stored in
  `prefetches[sc.key]` is always `sc` itself — it was stored there when
  spawned, a new fetch for the key cannot be spawned while it is present,
  and only its own readiness removes it — so the `prefetches[sc.key] == sc`
  comparison in the source succeeds, modelled by the `pending k` test;
* an expiration (`sc := <-done`): removes the entry from `caches`.

`cached k` / `pending k` model membership of `k` in `caches` /
`prefetches`.  `inflight k` is a ghost counter of fetch goroutines spawned
for `k` whose `ready` message has not yet been dispatched; the upstream
HTTP request of a fetch finishes strictly before its `ready` message is
sent, so the number of upstream fetches in flight for `k` at any instant is
at most `inflight k`. -/
inductive CacheEvent (K : Type u) where
  | request (k : K)
  | next (k : K)
  | ready (k : K)
  | done (k : K)

structure CacheDispatchState (K : Type u) where
  cached : K → Bool
  pending : K → Bool
  inflight : K → Nat

def initCacheState : CacheDispatchState K :=
  { cached := fun _ => false, pending := fun _ => false, inflight := fun _ => 0 }

def upd [DecidableEq K] (f : K → β) (k : K) (v : β) : K → β :=
  fun k' => if k' = k then v else f k'

def cacheStep [DecidableEq K] (s : CacheDispatchState K) : CacheEvent K → CacheDispatchState K
  | .request k =>
    if s.cached k then s
    else if s.pending k then s
    else { s with pending := upd s.pending k true,
                  inflight := upd s.inflight k (s.inflight k + 1) }
  | .next k =>
    if s.pending k then s
    else { s with pending := upd s.pending k true,
                  inflight := upd s.inflight k (s.inflight k + 1) }
  | .ready k =>
    if s.pending k then
      { cached := upd s.cached k true, pending := upd s.pending k false,
        inflight := upd s.inflight k (s.inflight k - 1) }
    else s
  | .done k =>
    if s.cached k then { s with cached := upd s.cached k false } else s

def cacheRun [DecidableEq K] (evs : List (CacheEvent K)) : CacheDispatchState K :=
  evs.foldl cacheStep initCacheState

def CacheInv (s : CacheDispatchState K) : Prop :=
  ∀ k, s.inflight k = (if s.pending k then 1 else 0)

theorem cacheStep_inv [DecidableEq K] {s : CacheDispatchState K} (h : CacheInv s)
    (e : CacheEvent K) : CacheInv (cacheStep s e) := by
  cases e with
  | request k =>
    by_cases hc : s.cached k
    · simpa only [cacheStep, if_pos hc] using h
    by_cases hp : s.pending k
    · simpa only [cacheStep, if_neg hc, if_pos hp] using h
    intro k'
    have hk1 := h k
    have hk2 := h k'
    simp only [cacheStep, if_neg hc, if_neg hp, upd]
    by_cases hk : k' = k <;> simp_all
  | next k =>
    by_cases hp : s.pending k
    · simpa only [cacheStep, if_pos hp] using h
    intro k'
    have hk1 := h k
    have hk2 := h k'
    simp only [cacheStep, if_neg hp, upd]
    by_cases hk : k' = k <;> simp_all
  | ready k =>
    by_cases hp : s.pending k
    · intro k'
      have hk1 := h k
      have hk2 := h k'
      simp only [cacheStep, if_pos hp, upd]
      by_cases hk : k' = k <;> simp_all
    · simpa only [cacheStep, if_neg hp] using h
  | done k =>
    by_cases hc : s.cached k
    · intro k'
      have hk2 := h k'
      simp only [cacheStep, if_pos hc]
      exact hk2
    · simpa only [cacheStep, if_neg hc] using h

theorem cacheRun_inv_aux [DecidableEq K] (evs : List (CacheEvent K))
    (s : CacheDispatchState K) (h : CacheInv s) : CacheInv (evs.foldl cacheStep s) := by
  induction evs generalizing s with
  | nil => exact h
  | cons e evs ih => exact ih _ (cacheStep_inv h e)

/-- C3 (single-flight): for every service key, after any sequence of
dispatch-loop events starting from the empty cache, the number of fetches
spawned for that key whose completion has not yet been dispatched is at
most one — a cache miss spawns a fetch only when none is pending for the
key, and a prefetch trigger for a key already being prefetched spawns
nothing.  Hence at most one upstream fetch is in flight per key at any
instant. -/
theorem single_flight {K : Type u} [DecidableEq K] (evs : List (CacheEvent K)) (k : K) :
    (cacheRun evs).inflight k ≤ 1 := by
  have h := cacheRun_inv_aux evs initCacheState (fun k' => by simp [initCacheState]) k
  unfold cacheRun
  rw [h]
  split <;> omega

/-! ### Query name parsing and response-code dispatch (`consul/consul.go`)

DNS names are ASCII byte strings; they are modelled as `List Char`.
`splitAtDot` is `split` (cut at the first `'.'`), `splitLastDot` is
`splitLast` (cut at the last `'.'`), `idxOfSub` is `strings.Index`,
`trimDotSuffix` is `strings.TrimSuffix(s, ".")` and `trimUnder` is
`strings.TrimPrefix(s, "_")`. -/
abbrev Str := List Char

def splitAtDot : Str → Str × Str
  | [] => ([], [])
  | c :: t => if c = '.' then ([], t) else (c :: (splitAtDot t).1, (splitAtDot t).2)

def splitLastDot : Str → Str × Str
  | [] => ([], [])
  | c :: t =>
    if '.' ∈ t then ((splitLastDot t).1, c :: (splitLastDot t).2)
    else if c = '.' then (t, [])
    else (c :: t, [])

def idxOfSub (sep : Str) : Str → Option Nat
  | [] => if sep = [] then some 0 else none
  | s@(_ :: t) => if sep.isPrefixOf s then some 0 else (idxOfSub sep t).map (· + 1)

def trimDotSuffix (s : Str) : Str := if s.getLast? = some '.' then s.dropLast else s

def trimUnder : Str → Str
  | '_' :: t => t
  | s => s

def serviceTok : Str := "service".toList

def queryTok : Str := "query".toList

def consulTok : Str := "consul".toList

def tcpTag : Str := "_tcp".toList

def dotServiceDot : Str := ".service.".toList

def dotQueryDot : Str := ".query.".toList

/-- Model of `splitNameDefault` from `consul/consul.go`: looks for the first
occurrence of `".service."`, then of `".query."`; the head is split at its
last dot into `(name, tag)` and the rest at its last dot into
`(domain, dc)`.  Result order is `(name, tag, typ, dc, domain)`. -/
def splitNameDefault (s : Str) : Str × Str × Str × Str × Str :=
  match idxOfSub dotServiceDot s with
  | some i =>
    let p1 := splitLastDot (s.take i)
    let p2 := splitLastDot (s.drop (i + dotServiceDot.length))
    (p1.1, p1.2, serviceTok, p2.2, p2.1)
  | none =>
    match idxOfSub dotQueryDot s with
    | some i =>
      let p1 := splitLastDot (s.take i)
      let p2 := splitLastDot (s.drop (i + dotQueryDot.length))
      (p1.1, p1.2, queryTok, p2.2, p2.1)
    | none => ([], [], [], [], [])

/-- The tail of `splitNameRFC2782` after the `service`/datacenter parsing:
`_tcp` means "no tag", any other tag must start with `'_'` (otherwise the
function returns with an empty name and an empty `typ`), and the leading
underscores of name and tag are stripped. -/
def rfcTagCheck (name tag dc domain : Str) : Str × Str × Str × Str × Str :=
  if tag = tcpTag then (trimUnder name, [], serviceTok, dc, domain)
  else
    match tag with
    | '_' :: t => (trimUnder name, t, serviceTok, dc, domain)
    | _ => ([], tag, [], dc, domain)

/-- Model of `splitNameRFC2782` from `consul/consul.go`. -/
def splitNameRFC2782 (s0 : Str) : Str × Str × Str × Str × Str :=
  let p1 := splitAtDot s0
  let p2 := splitAtDot p1.2
  let p3 := splitAtDot p2.2
  if p3.1 = serviceTok then
    let p4 := splitAtDot p3.2
    if p4.2 ≠ [] then
      let p5 := splitAtDot p4.2
      if p5.2 ≠ [] then ([], p2.1, [], p4.1, p5.1)
      else rfcTagCheck p1.1 p2.1 p4.1 p5.1
    else rfcTagCheck p1.1 p2.1 [] p4.1
  else rfcTagCheck p1.1 p2.1 [] p3.1

/-- Model of `splitName` from `consul/consul.go`: trim one trailing dot, then parse
in RFC 2782 format when the name starts with `'_'`, in the default format
otherwise. -/
def splitName (s : Str) : Str × Str × Str × Str × Str :=
  match trimDotSuffix s with
  | '_' :: t => splitNameRFC2782 ('_' :: t)
  | s' => splitNameDefault s'

/-! ### Response-code dispatch (`(*Consul).serveDNS`, `consul/consul.go`) -/
def typeA : Nat := 1

def typeAAAA : Nat := 28

def typeSRV : Nat := 33

def typeANY : Nat := 255

def rcodeNameError : Nat := 3

def rcodeNotImplemented : Nat := 4

def rcodeRefused : Nat := 5

structure Key where
  name : Str
  tag : Str
  dc : Str
  qtype : Nat
deriving DecidableEq

inductive DNSOutcome where
  | err (rcode : Nat)
  | lookupKey (k : Key)
deriving DecidableEq

/-- The pure dispatch prefix of `(*Consul).serveDNS`: name parsing, the
response-code decisions, datacenter defaulting from the agent, and the
construction of the cache key (with `SRV` rewritten to `ANY`). -/
def serveDNSKey (qname : Str) (qtype : Nat) (agentDC : Str) : DNSOutcome :=
  let p := splitName qname
  if p.1 = [] then .err rcodeNameError
  else if p.2.2.2.2 ≠ consulTok then .err rcodeRefused
  else if p.2.2.1 ≠ serviceTok then .err rcodeNotImplemented
  else
    let dc := if p.2.2.2.1 = [] then agentDC else p.2.2.2.1
    if qtype = typeA ∨ qtype = typeAAAA ∨ qtype = typeANY then
      .lookupKey ⟨p.1, p.2.1, dc, qtype⟩
    else if qtype = typeSRV then .lookupKey ⟨p.1, p.2.1, dc, typeANY⟩
    else .err rcodeNotImplemented

/-- C6 (response-code dispatch): for every incoming query, an empty
parsed service name yields NXDOMAIN (3); otherwise a parsed domain other
than `consul` yields REFUSED (5); otherwise a parsed type segment other
than `service` yields NOTIMPL (4); otherwise a query type outside
`{A, AAAA, ANY, SRV}` yields NOTIMPL (4); and a `SRV` query is served with
the cache-key query type rewritten to `ANY`. -/
theorem response_code_dispatch (qname : Str) (qtype : Nat) (agentDC : Str) :
    ((splitName qname).1 = [] → serveDNSKey qname qtype agentDC = .err rcodeNameError)
    ∧ ((splitName qname).1 ≠ [] → (splitName qname).2.2.2.2 ≠ consulTok →
        serveDNSKey qname qtype agentDC = .err rcodeRefused)
    ∧ ((splitName qname).1 ≠ [] → (splitName qname).2.2.2.2 = consulTok →
        (splitName qname).2.2.1 ≠ serviceTok →
        serveDNSKey qname qtype agentDC = .err rcodeNotImplemented)
    ∧ ((splitName qname).1 ≠ [] → (splitName qname).2.2.2.2 = consulTok →
        (splitName qname).2.2.1 = serviceTok →
        qtype ≠ typeA → qtype ≠ typeAAAA → qtype ≠ typeANY → qtype ≠ typeSRV →
        serveDNSKey qname qtype agentDC = .err rcodeNotImplemented)
    ∧ ((splitName qname).1 ≠ [] → (splitName qname).2.2.2.2 = consulTok →
        (splitName qname).2.2.1 = serviceTok → qtype = typeSRV →
        serveDNSKey qname qtype agentDC
          = .lookupKey ⟨(splitName qname).1, (splitName qname).2.1,
              (if (splitName qname).2.2.2.1 = [] then agentDC
               else (splitName qname).2.2.2.1), typeANY⟩) := by
  refine ⟨?_, ?_, ?_, ?_, ?_⟩
  · intro h1
    simp [serveDNSKey, h1]
  · intro h1 h2
    simp [serveDNSKey, h1, h2]
  · intro h1 h2 h3
    simp [serveDNSKey, h1, h2, h3]
  · intro h1 h2 h3 h4 h5 h6 h7
    simp [serveDNSKey, h1, h2, h3, h4, h5, h6, h7]
  · intro h1 h2 h3 h4
    simp [serveDNSKey, h1, h2, h3, h4, typeSRV, typeA, typeAAAA, typeANY]

/-- Witness for `response_code_dispatch`: a non-`consul` domain is REFUSED,
and an SRV query for `s1.service.consul.` is served with query type `ANY`
(255) in the cache key. -/
theorem response_code_dispatch_witness :
    ((splitName ("x.service.other.".toList)).1 ≠ []
      ∧ (splitName ("x.service.other.".toList)).2.2.2.2 ≠ consulTok
      ∧ serveDNSKey ("x.service.other.".toList) 1 ("dc1".toList) = .err rcodeRefused)
    ∧ ((splitName ("s1.service.consul.".toList)).1 ≠ []
      ∧ serveDNSKey ("s1.service.consul.".toList) 33 ("dc1".toList)
          = .lookupKey ⟨"s1".toList, [], "dc1".toList, typeANY⟩) :=
  ⟨⟨by decide, by decide,
      (response_code_dispatch ("x.service.other.".toList) 1 ("dc1".toList)).2.1
        (by decide) (by decide)⟩,
    ⟨by decide, by
      have h := (response_code_dispatch ("s1.service.consul.".toList) 33 ("dc1".toList)).2.2.2.2
        (by decide) (by decide) (by decide) (by decide)
      simpa using h⟩⟩

end Consul

namespace Dogstatsd

/-! ### Counter translation (`state.observe`, `dogstatsd/metric.go`)

    v, ok := s[k]
    case counter:
        delta := m.value - v.value
        if delta < 0 { delta = m.value }     // counter reset
        if ok = delta != 0; ok { v, m.value = m, delta }
    s[k] = v

A missing key reads as the zero-valued metric, so the baseline starts at
`0`.  `observeCounter last v` returns the emitted sample (if any) and the
new stored last value; `counterEmits last vs` is the emitted stream of a
sequence of observations for one key.  Values are `ℚ` (see header). -/
def observeCounter (last v : ℚ) : Option ℚ × ℚ :=
  let delta := v - last
  let delta2 := if delta < 0 then v else delta
  if delta2 ≠ 0 then (some delta2, v) else (none, last)

def counterEmits (last : ℚ) : List ℚ → List ℚ
  | [] => []
  | v :: vs =>
    match (observeCounter last v).1 with
    | some d => d :: counterEmits (observeCounter last v).2 vs
    | none => counterEmits (observeCounter last v).2 vs

theorem zero_not_mem_counterEmits (vs : List ℚ) : ∀ last : ℚ, (0 : ℚ) ∉ counterEmits last vs := by
  induction vs with
  | nil => intro last; simp [counterEmits]
  | cons v vs ih =>
    intro last
    by_cases hd : (if v - last < 0 then v else v - last) ≠ 0
    · simp only [counterEmits, observeCounter, if_pos hd]
      intro hmem
      rcases List.mem_cons.mp hmem with h0 | h0
      · exact hd h0.symm
      · exact ih v h0
    · simp only [counterEmits, observeCounter, if_neg hd]
      exact ih last

theorem counterEmits_sum (vs : List ℚ) : ∀ last : ℚ,
    List.Chain' (· ≤ ·) (last :: vs) →
    (counterEmits last vs).sum = vs.getLastD last - last := by
  induction vs with
  | nil => intro last _; simp [counterEmits]
  | cons v vs ih =>
    intro last hchain
    rw [List.chain'_cons] at hchain
    obtain ⟨hle, hchain⟩ := hchain
    have hnonneg : ¬ (v - last < 0) := by simp [sub_neg]; exact hle
    by_cases hv : v = last
    · have hz : ¬ ((if v - last < 0 then v else v - last) ≠ 0) := by
        simp [if_neg hnonneg, hv]
      simp only [counterEmits, observeCounter, if_neg hz]
      rw [List.getLastD_cons]
      subst hv
      exact ih v hchain
    · have hz : (if v - last < 0 then v else v - last) ≠ 0 := by
        rw [if_neg hnonneg]
        exact sub_ne_zero_of_ne hv
      simp only [counterEmits, observeCounter, if_pos hz]
      rw [List.sum_cons, if_neg hnonneg, ih v hchain, List.getLastD_cons]
      ring

/-- C2 (counterexample): feeding a fresh counter key (baseline `0`) the
single observation `5` emits the sample `5`; the claim demands that the
initial observation only establish the baseline and emit nothing. -/
theorem counter_baseline_counterexample : counterEmits 0 [5] ≠ [] := by
  simp [counterEmits, observeCounter]

/-- C2 (amended): for every counter key the translator keeps a stored
last value, initially `0` (a missing map key reads as the zero metric).
Observing `v` computes `delta = v - last`, replaces a negative delta by the
raw value `v`, emits `delta` iff `delta ≠ 0`, and updates the stored last
to `v` only when a sample is emitted.  Consequently: over a monotonically
non-decreasing run the emitted deltas sum to the final value minus the
baseline (the emitted stream is exactly the non-zero delta stream); zero is
never emitted; the first non-zero observation emits its raw value; a reset
to exactly `0` is suppressed and leaves the baseline at the pre-reset
value; and a reset to a non-zero smaller value emits the raw value and
makes it the new baseline. -/
theorem counter_translation_amended (last : ℚ) (vs : List ℚ)
    (hmono : List.Chain' (· ≤ ·) (last :: vs)) :
    (counterEmits last vs).sum = vs.getLastD last - last
    ∧ (∀ (l : ℚ) (ws : List ℚ), (0 : ℚ) ∉ counterEmits l ws)
    ∧ (∀ (w : ℚ) (ws : List ℚ), w ≠ 0 → counterEmits 0 (w :: ws) = w :: counterEmits w ws)
    ∧ (∀ (l : ℚ) (ws : List ℚ), 0 ≤ l → counterEmits l (0 :: ws) = counterEmits l ws)
    ∧ (∀ (l w : ℚ) (ws : List ℚ), w < l → w ≠ 0 →
        counterEmits l (w :: ws) = w :: counterEmits w ws) := by
  refine ⟨counterEmits_sum vs last hmono, fun l ws => zero_not_mem_counterEmits ws l,
    ?_, ?_, ?_⟩
  · intro w ws hw
    have : (if w - 0 < 0 then w else w - 0) ≠ 0 := by
      rw [sub_zero, ite_self]
      exact hw
    simp only [counterEmits, observeCounter, if_pos this]
    rw [sub_zero, ite_self]
  · intro l ws hl
    rcases eq_or_lt_of_le hl with h | h
    · have hz : ¬ ((if (0 : ℚ) - l < 0 then (0 : ℚ) else 0 - l) ≠ 0) := by
        rw [← h]
        norm_num
      simp only [counterEmits, observeCounter, if_neg hz]
    · have hneg : (0 : ℚ) - l < 0 := by simpa using h
      have hz : ¬ ((if (0 : ℚ) - l < 0 then (0 : ℚ) else 0 - l) ≠ 0) := by
        rw [if_pos hneg]
        norm_num
      simp only [counterEmits, observeCounter, if_neg hz]
  · intro l w ws hwl hw
    have hneg : w - l < 0 := by simpa [sub_neg] using hwl
    have hz : (if w - l < 0 then w else w - l) ≠ 0 := by
      rw [if_pos hneg]
      exact hw
    simp only [counterEmits, observeCounter, if_pos hz]
    rw [if_pos hneg]

/-- Witness for `counter_translation_amended` on the run `0 ≤ 1 ≤ 2 ≤ 2`. -/
theorem counter_translation_amended_witness :
    List.Chain' (· ≤ ·) ((0 : ℚ) :: [1, 2, 2])
      ∧ (counterEmits 0 [1, 2, 2]).sum = [(1 : ℚ), 2, 2].getLastD 0 - 0 :=
  ⟨by norm_num [List.chain'_cons],
    (counter_translation_amended 0 [1, 2, 2] (by norm_num [List.chain'_cons])).1⟩

/-! ### Histogram bucket translation (`makeMetrics` and `state.observe`,
`dogstatsd/metric.go`)

Per histogram bucket, `makeMetrics` produces one metric per scrape:

    metrics = append(metrics, metric{ ..., value: rand(min, max),
        index: index, count: cct - acc, version: cct })
    acc = cct; min = max

(`cct` is the bucket's cumulative count, `max` its upper bound; `min`
starts at `0` and `acc` at `0`; `cct - acc` is `uint64` arithmetic).
`state.observe` then decides emission against the stored last metric `v`
(zero metric for a fresh key):

    count := m.count - v.count
    if ok = v.version != m.version && count != 0; ok {
        m.rate = 1 / float64(count)
        v = m
    }

`sub64` is Go `uint64` subtraction. -/
def sub64 (a b : Nat) : Nat := (a % 2 ^ 64 + 2 ^ 64 - b % 2 ^ 64) % 2 ^ 64

structure HMetric where
  value : ℚ
  rate : ℚ
  index : Nat
  count : Nat
  version : Nat
deriving DecidableEq, Inhabited

def observeHistogram (v m : HMetric) : Option HMetric × HMetric :=
  if v.version ≠ m.version ∧ sub64 m.count v.count ≠ 0 then
    (some { m with rate := 1 / ((sub64 m.count v.count : Nat) : ℚ) }, m)
  else (none, v)

def makeHistogramMetrics (rand : ℚ → ℚ → ℚ) :
    Nat → Nat → ℚ → List (Nat × ℚ) → List HMetric
  | _, _, _, [] => []
  | idx, acc, min, (cct, max) :: rest =>
    { value := rand min max, rate := 0, index := idx,
      count := sub64 cct acc, version := cct }
      :: makeHistogramMetrics rand (idx + 1) cct max rest

/-- The lower bound of bucket `i` as the claim states it: the previous
bucket's upper bound, and the running lower bound `lo` (`0` at the top
level) for the first bucket. -/
def bucketLower (lo : ℚ) (buckets : List (Nat × ℚ)) : Nat → ℚ
  | 0 => lo
  | i + 1 => (buckets.getD i (0, 0)).2

/-- A fixed last/new metric pair on which the claimed suppression
condition disagrees with the code: the bucket's per-bucket count is
unchanged (`count delta = 0`) while its cumulative count moved from 5 to 7
(observations landed in a lower bucket). -/
def hLast : HMetric := { value := 0, rate := 0, index := 1, count := 2, version := 5 }

def hNew : HMetric := { value := 0, rate := 0, index := 1, count := 2, version := 7 }

/-- C8 (counterexample): the claim says a bucket observation is
suppressed exactly when the per-bucket count delta is zero AND the
cumulative count is unchanged; so for `hLast`/`hNew` (count delta `0`,
cumulative count changed 5 → 7) it demands an emission.  The code
suppresses it (`v.version != m.version && count != 0` fails on
`count = 0`). -/
theorem histogram_suppression_counterexample :
    (observeHistogram hLast hNew).1 = none
      ∧ hNew.version ≠ hLast.version
      ∧ sub64 hNew.count hLast.count = 0 := by
  refine ⟨?_, by decide, by decide⟩
  have h : ¬ (hLast.version ≠ hNew.version ∧ sub64 hNew.count hLast.count ≠ 0) := by decide
  simp [observeHistogram, h]

theorem makeHistogramMetrics_bounds (rand : ℚ → ℚ → ℚ)
    (hrand : ∀ a b : ℚ, a < b → a ≤ rand a b ∧ rand a b < b)
    (buckets : List (Nat × ℚ)) : ∀ (idx acc : Nat) (lo : ℚ),
    List.Chain' (· < ·) (lo :: buckets.map Prod.snd) →
    ∀ i, i < buckets.length →
      bucketLower lo buckets i
          ≤ ((makeHistogramMetrics rand idx acc lo buckets).getD i default).value
        ∧ ((makeHistogramMetrics rand idx acc lo buckets).getD i default).value
          < (buckets.getD i (0, 0)).2 := by
  induction buckets with
  | nil => intro idx acc lo _ i hi; simp at hi
  | cons b rest ih =>
    intro idx acc lo hchain i hi
    rw [List.map_cons, List.chain'_cons] at hchain
    obtain ⟨hlo, hchain⟩ := hchain
    cases i with
    | zero =>
      simpa [makeHistogramMetrics, bucketLower] using hrand lo b.2 hlo
    | succ i =>
      have hrec := ih (idx + 1) b.1 b.2 hchain i (by simpa using hi)
      have hlow : bucketLower lo (b :: rest) (i + 1) = bucketLower b.2 rest i := by
        cases i with
        | zero => simp [bucketLower]
        | succ j => simp [bucketLower]
      rw [hlow]
      simpa [makeHistogramMetrics] using hrec

/-- C8 (amended): a bucket observation is suppressed exactly when the
per-bucket count delta is zero OR the cumulative count (the `version`) is
unchanged from the last observation; when emitted, the sample's rate is
`1 / count_delta`, its value is the one produced by `makeMetrics`, and the
observed metric becomes the stored last. `makeMetrics` draws each bucket's
value with `rand(min, max)` where `min` is the previous bucket's upper
bound (`0` for the first), so for any `rand` that respects `[min, max)`
and strictly increasing positive bucket bounds, each produced value lies
in the bucket's `[lower_bound, upper_bound)`. -/
theorem histogram_translation_amended (v m : HMetric) :
    ((observeHistogram v m).1 = none
        ↔ (sub64 m.count v.count = 0 ∨ m.version = v.version))
    ∧ (∀ r, (observeHistogram v m).1 = some r →
        r.rate = 1 / ((sub64 m.count v.count : Nat) : ℚ)
          ∧ r.value = m.value ∧ (observeHistogram v m).2 = m)
    ∧ (∀ (rand : ℚ → ℚ → ℚ), (∀ a b : ℚ, a < b → a ≤ rand a b ∧ rand a b < b) →
        ∀ (buckets : List (Nat × ℚ)),
          List.Chain' (· < ·) (0 :: buckets.map Prod.snd) →
          ∀ i, i < buckets.length →
            bucketLower 0 buckets i
                ≤ ((makeHistogramMetrics rand 0 0 0 buckets).getD i default).value
              ∧ ((makeHistogramMetrics rand 0 0 0 buckets).getD i default).value
                < (buckets.getD i (0, 0)).2) := by
  refine ⟨?_, ?_, ?_⟩
  · by_cases hc : v.version ≠ m.version ∧ sub64 m.count v.count ≠ 0
    · simp only [observeHistogram, if_pos hc]
      constructor
      · intro h; exact absurd h (by simp)
      · intro h
        rcases h with h | h
        · exact absurd h hc.2
        · exact absurd h.symm hc.1
    · simp only [observeHistogram, if_neg hc]
      constructor
      · intro _
        by_cases h1 : sub64 m.count v.count = 0
        · exact Or.inl h1
        · refine Or.inr ?_
          by_contra h2
          exact hc ⟨fun h => h2 h.symm, h1⟩
      · intro _; trivial
  · intro r hr
    by_cases hc : v.version ≠ m.version ∧ sub64 m.count v.count ≠ 0
    · simp only [observeHistogram, if_pos hc] at hr ⊢
      cases hr
      exact ⟨rfl, rfl, by trivial⟩
    · simp only [observeHistogram, if_neg hc] at hr
      cases hr
  · intro rand hrand buckets hchain i hi
    exact makeHistogramMetrics_bounds rand hrand buckets 0 0 0 hchain i hi

/-- Witness for `histogram_translation_amended`: buckets with upper bounds
`10` and `20`, the lower-bound-drawing `rand a b = a`, second bucket. -/
theorem histogram_translation_amended_witness :
    (∀ a b : ℚ, a < b → a ≤ (fun a _ => a) a b ∧ (fun a _ => a) a b < b)
      ∧ List.Chain' (· < ·) (0 :: ([((10 : Nat), (10 : ℚ)), (30, 20)].map Prod.snd))
      ∧ (1 : Nat) < [((10 : Nat), (10 : ℚ)), (30, 20)].length
      ∧ (bucketLower 0 [((10 : Nat), (10 : ℚ)), (30, 20)] 1
            ≤ ((makeHistogramMetrics (fun a _ => a) 0 0 0
                [((10 : Nat), (10 : ℚ)), (30, 20)]).getD 1 default).value
          ∧ ((makeHistogramMetrics (fun a _ => a) 0 0 0
                [((10 : Nat), (10 : ℚ)), (30, 20)]).getD 1 default).value
            < ([((10 : Nat), (10 : ℚ)), (30, 20)].getD 1 (0, 0)).2) :=
  ⟨fun a _ h => ⟨le_refl a, h⟩, by norm_num [List.chain'_cons], by norm_num,
    (histogram_translation_amended hLast hNew).2.2 (fun a _ => a)
      (fun a _ h => ⟨le_refl a, h⟩) [((10 : Nat), (10 : ℚ)), (30, 20)]
      (by norm_num [List.chain'_cons]) 1 (by norm_num)⟩

/-! ### Top-N counters (`counterStore`, `dogstatsd/counters.go`)

The store is a `map[string]int64` under a mutex; `incr` adds one to a
key's count (a missing key reads as `0`), and `top(n)` swaps the map for a
fresh empty one, sorts the snapshot's entries by count descending
(`sort.Sort(sort.Reverse(...ByValue))`), and truncates to the first `n`.
The map is modelled as an association list with unique keys; Go's
`sort.Sort` is unstable, guaranteeing only a sorted permutation, which is
what `mergeSort` with the same comparison provides.  `top` returns the
reported entries together with the new (empty) state of the store. -/
def incr : List (String × Int) → String → List (String × Int)
  | [], name => [(name, 1)]
  | (k, v) :: t, name => if k = name then (k, v + 1) :: t else (k, v) :: incr t name

def leByCount (a b : String × Int) : Bool := b.2 ≤ a.2

def top (n : Nat) (m : List (String × Int)) :
    List (String × Int) × List (String × Int) :=
  ((m.mergeSort leByCount).take n, [])

/-- C9 (top-N reset-on-read): `top n` returns at most `n` entries,
sorted by count in non-increasing order, all drawn from the counts
accumulated in the store since the last call, and replaces the store by a
fresh empty one — so a second `top n` with no intervening `incr` returns
the empty sequence. -/
theorem topN_reset_on_read (m : List (String × Int)) (n : Nat) :
    (top n m).1.length ≤ n
    ∧ List.Pairwise (fun a b : String × Int => b.2 ≤ a.2) (top n m).1
    ∧ (∀ e, e ∈ (top n m).1 → e ∈ m)
    ∧ (top n m).2 = []
    ∧ (top n (top n m).2).1 = [] := by
  refine ⟨List.length_take_le n _, ?_, ?_, rfl, by simp [top]⟩
  · have hs := @List.sorted_mergeSort (String × Int) leByCount
      (fun a b c hab hbc => by
        simp only [leByCount, decide_eq_true_eq] at *
        exact le_trans hbc hab)
      (fun a b => by
        simp only [leByCount, Bool.or_eq_true, decide_eq_true_eq]
        exact le_total b.2 a.2) m
    have hp : List.Pairwise (fun a b : String × Int => b.2 ≤ a.2) (m.mergeSort leByCount) := by
      refine hs.imp ?_
      intro a b hab
      simpa [leByCount] using hab
    exact hp.sublist (List.take_sublist n _)
  · intro e he
    have h1 : e ∈ m.mergeSort leByCount := List.mem_of_mem_take he
    exact (List.mergeSort_perm m leByCount).mem_iff.mp h1

/-- Witness for `topN_reset_on_read` on the one-entry store `[("a", 10)]`:
the reported entry is drawn from the store, and a second `top` returns
nothing. -/
theorem topN_reset_on_read_witness :
    ("a", (10 : Int)) ∈ (top 1 [("a", (10 : Int))]).1
      ∧ ("a", (10 : Int)) ∈ [("a", (10 : Int))]
      ∧ (top 1 (top 1 [("a", (10 : Int))]).2).1 = [] := by
  have hmem : ("a", (10 : Int)) ∈ (top 1 [("a", (10 : Int))]).1 := by
    simp [top, List.mergeSort_singleton]
  exact ⟨hmem, (topN_reset_on_read [("a", (10 : Int))] 1).2.2.1 _ hmem,
    (topN_reset_on_read [("a", (10 : Int))] 1).2.2.2.2⟩

/-! ### Datagram packing (`(*Dogstatsd).flushMetrics`, `dogstatsd/dogstatsd.go`)

    out := make([]byte, 0, bufferSize)
    buf := make([]byte, 0, bufferSize)
    for _, m := range metrics {
        buf = appendMetric(buf[:0], m)
        if len(buf) > bufferSize { /* log */ ; continue }
        if (len(out) + len(buf)) > bufferSize { conn.Write(out); out = out[:0] }
        out = append(out, buf...)
    }
    if len(out) != 0 { _, err = conn.Write(out) }

Each metric is serialised (`appendMetric`) before packing; `flushLoop`
receives the serialised byte strings and returns the list of datagrams
written to the socket, `out` being the datagram under construction. -/
def flushLoop (B : Nat) (out : List α) : List (List α) → List (List α)
  | [] => if out.length = 0 then [] else [out]
  | buf :: ms =>
    if B < buf.length then flushLoop B out ms
    else if B < out.length + buf.length then out :: flushLoop B buf ms
    else flushLoop B (out ++ buf) ms

def flushMetrics (B : Nat) (ms : List (List α)) : List (List α) := flushLoop B [] ms

theorem flushLoop_sizes (B : Nat) (ms : List (List α)) : ∀ out : List α,
    out.length ≤ B → ∀ d ∈ flushLoop B out ms, d.length ≤ B := by
  induction ms with
  | nil =>
    intro out hout d hd
    simp only [flushLoop] at hd
    split at hd
    · simp at hd
    · rw [List.mem_singleton] at hd
      exact hd ▸ hout
  | cons buf ms ih =>
    intro out hout d hd
    simp only [flushLoop] at hd
    split at hd
    · exact ih out hout d hd
    split at hd
    · rcases List.mem_cons.mp hd with h | h
      · exact h ▸ hout
      · exact ih buf (by omega) d h
    · exact ih (out ++ buf) (by rw [List.length_append]; omega) d hd

theorem flushLoop_flatten (B : Nat) (ms : List (List α)) : ∀ out : List α,
    (flushLoop B out ms).flatten = out ++ (ms.filter (fun b => b.length ≤ B)).flatten := by
  induction ms with
  | nil =>
    intro out
    simp only [flushLoop]
    split
    · simp_all [List.length_eq_zero]
    · simp
  | cons buf ms ih =>
    intro out
    simp only [flushLoop, List.filter_cons]
    split
    · rw [if_neg (by simp; omega), ih out]
    split
    · rw [if_pos (by simp; omega)]
      simp only [List.flatten_cons, ih buf, List.append_assoc]
    · rw [if_pos (by simp; omega)]
      simp only [ih (out ++ buf), List.flatten_cons, List.append_assoc]

/-- C10 (flusher packing): for every buffer size and list of serialised
samples, no written datagram exceeds the buffer size, and the
concatenation of the written datagrams equals, in order, the concatenation
of exactly those samples that fit in the buffer — any sample whose
serialised form alone exceeds the buffer is dropped while every other
sample is written exactly once, packed greedily in input order. -/
theorem flusher_packing (B : Nat) (ms : List (List α)) :
    (flushMetrics B ms).all (fun d => d.length ≤ B) = true
      ∧ (flushMetrics B ms).flatten = (ms.filter (fun b => b.length ≤ B)).flatten := by
  constructor
  · rw [List.all_eq_true]
    intro d hd
    simpa using flushLoop_sizes B ms [] (by simp) d hd
  · simpa using flushLoop_flatten B ms []

end Dogstatsd
